import Mathlib

/-
Verification development for the Kino Dießen schedule scraper (src/main.py).

The Python program is shallowly embedded as pure Lean functions:

* HTML nodes are modelled by records holding exactly the query results the
  code reads (`find("a")`, `find_all("td")`, the CSS selector hits on the
  detail page, and so on);
* the `aiohttp` fetches are modelled by an oracle `Nat → String → Option
  DetailDoc` (invocation index, url) where `none` stands for any exception
  raised inside the `try` of `get_movie_details`;
* Python exceptions that the code lets escape are modelled with `Except
  PyErr`; `asyncio.gather` over coroutines that are pure in this model is
  list traversal in `Except` (`exMapM`), which keeps input order and
  propagates the first raised exception, exactly as the surrounding code
  observes it;
* `datetime` values are records of numerals; `datetime + timedelta(minutes=n)`
  is `n` iterations of a one-minute successor with calendar carry, and
  `toAbsMinutes` linearises a datetime to minutes on the proleptic Gregorian
  timeline;
* the `asyncio.Semaphore(max_concurrent)` guarding the detail fetches is
  modelled by a nondeterministic step relation over task phases.
-/

namespace Kino

/-! ## Python string primitives -/

/-- ASCII whitespace stripped by Python `str.strip()` and matched by `\s`
(the inputs of interest are ASCII; exotic unicode whitespace is not
modelled). -/
def isPySpace (c : Char) : Bool :=
  c = ' ' || c = '\t' || c = '\n' || c = '\r' || c = '\x0b' || c = '\x0c'

/-- `str.strip()` on a character list. -/
def stripChars (l : List Char) : List Char :=
  ((l.dropWhile isPySpace).reverse.dropWhile isPySpace).reverse

/-- `str.strip()`. -/
def pyStrip (s : String) : String := String.mk (stripChars s.toList)

/-- `.replace("\n", "")` as used on header cell text. -/
def removeNewlines (s : String) : String :=
  String.mk (s.toList.filter (fun c => c ≠ '\n'))

/-- Numeric value of a digit string, as `int()` computes it on an
all-digit input (`'0'.toNat = 48`). -/
def natOfDigits (l : List Char) : Nat :=
  l.foldl (fun a c => a * 10 + (c.toNat - 48)) 0

/-- Exceptions the embedded code can raise. -/
inductive PyErr where
  | attributeError
  | valueError
deriving DecidableEq, Repr

/-- Python `int(s)` for the shapes arising here: strip whitespace, optional
sign, then a nonempty digit run (digit-group underscores are not
modelled). Raises `ValueError` otherwise. -/
def pyIntChars (l : List Char) : Except PyErr Int :=
  match stripChars l with
  | '-' :: ds =>
      if ds ≠ [] ∧ ds.all Char.isDigit then .ok (-(natOfDigits ds : Int))
      else .error .valueError
  | '+' :: ds =>
      if ds ≠ [] ∧ ds.all Char.isDigit then .ok (natOfDigits ds : Int)
      else .error .valueError
  | ds =>
      if ds ≠ [] ∧ ds.all Char.isDigit then .ok (natOfDigits ds : Int)
      else .error .valueError

/-- Python `s.split(sep)` for a one-character separator (never returns an
empty list; `"".split(":") = [""]`). -/
def splitOnChar (sep : Char) : List Char → List (List Char)
  | [] => [[]]
  | c :: rest =>
    if c = sep then [] :: splitOnChar sep rest
    else
      match splitOnChar sep rest with
      | h :: t => (c :: h) :: t
      | [] => [[c]]

/-! ## HTML-level model

Only the query results the source reads are represented. -/

/-- An `<a>` element: its text, its `href` attribute, and the text of its
first `<span>` descendant if any (`time_link.find("span")`). -/
structure Anchor where
  text : String
  href : String
  spanText : Option String
deriving DecidableEq, Repr

/-- A `<td>` cell: the anchors `cell.find_all("a")` returns, in document
order. -/
structure Cell where
  anchors : List Anchor
deriving DecidableEq, Repr

/-- A `<tr>` body row, as the two queries the code performs see it:
`row.find("a")` (first anchor in the row, `none` when the row has no
anchor) and `row.find_all("td")`. -/
structure MovieRowHtml where
  firstAnchor : Option Anchor
  cells : List Cell
deriving DecidableEq, Repr

/-- A detail page, as the four selector queries of `get_movie_details`
see it: text of the 4th `li` (description), text of the 2nd `li`
(duration/FSK), text of the room `span`, and the `src` attributes of all
`<iframe>` elements in document order. -/
structure DetailDoc where
  descNode : Option String
  durationNode : Option String
  roomNode : Option String
  iframeSrcs : List String
deriving DecidableEq, Repr

/-- The schedule table: texts of all `thead th` cells (the first labels
the row column, not a date) and all `tbody tr` rows. -/
structure SchedTable where
  headerCells : List String
  bodyRows : List MovieRowHtml
deriving DecidableEq, Repr

/-- The schedule page: `soup.find("table", class_="table-text")` either
hits a table or returns `None`. -/
structure SchedulePage where
  scheduleTable : Option SchedTable
deriving DecidableEq, Repr

/-! ## The regex scans of `get_movie_details` and `_parse_date` -/

/-- Python `pat in s` substring containment on character lists. -/
def containsSub (pat : List Char) : List Char → Bool
  | [] => pat.isEmpty
  | c :: rest => List.isPrefixOf pat (c :: rest) || containsSub pat rest

/-- `re.search(r"(\d+)\s*Min\.", text)`: at each start position (leftmost
first) try a maximal digit run, optional whitespace, then the literal
`Min.`; return the run's numeric value. On failure at a position, advance
one character, as `re.search` does. -/
def searchDurationMin : List Char → Option Nat
  | [] => none
  | c :: rest =>
    if c.isDigit then
      if List.isPrefixOf ("Min.".toList)
          (((c :: rest).dropWhile Char.isDigit).dropWhile isPySpace) then
        some (natOfDigits ((c :: rest).takeWhile Char.isDigit))
      else searchDurationMin rest
    else searchDurationMin rest

/-- `re.search(r"FSK:\s*(\d+)", text)`: leftmost literal `FSK:`, optional
whitespace, then a maximal nonempty digit run, returned as matched. -/
def searchFSK : List Char → Option (List Char)
  | [] => none
  | c :: rest =>
    if List.isPrefixOf ("FSK:".toList) (c :: rest) then
      if (((c :: rest).drop 4).dropWhile isPySpace).takeWhile Char.isDigit ≠ [] then
        some ((((c :: rest).drop 4).dropWhile isPySpace).takeWhile Char.isDigit)
      else searchFSK rest
    else searchFSK rest

/-- `re.search(r"(\d{2})\.(\d{2})\.", date_text)`: leftmost occurrence of
two digits, a dot, two digits, a dot; returns (group 1 value, group 2
value) = (day, month). -/
def searchDDMM : List Char → Option (Nat × Nat)
  | a :: b :: p :: x :: y :: q :: rest =>
    if a.isDigit ∧ b.isDigit ∧ p = '.' ∧ x.isDigit ∧ y.isDigit ∧ q = '.' then
      some (natOfDigits [a, b], natOfDigits [x, y])
    else searchDDMM (b :: p :: x :: y :: q :: rest)
  | _ => none

/-- The spec's wording of the duration pattern: the text contains a
nonempty digit run, then optional whitespace, then the literal `Min.`,
and `n` is the run's numeric value.  (Stated from the spec's words, to
be compared with `searchDurationMin`, which is translated from the
code.) -/
def MinPatternMatch (l : List Char) (n : Nat) : Prop :=
  ∃ pre ds ws suf, l = pre ++ ds ++ ws ++ ("Min.".toList) ++ suf
    ∧ ds ≠ [] ∧ ds.all Char.isDigit = true ∧ ws.all isPySpace = true
    ∧ natOfDigits ds = n

/-! ## Movie details (`get_movie_details`) -/

/-- The fully-populated details dict built on the success path of
`get_movie_details`. -/
structure MovieDetails where
  duration : Nat
  description : String
  trailer : String
  fsk : String
  room : String
deriving DecidableEq, Repr

/-- The dict `get_movie_details` returns: a full record on success, or the
empty dict `{}` (modelled as `none`) when the `except` branch runs. -/
abbrev Details := Option MovieDetails

/-- `movie_details.get("duration", 120)` on a possibly-empty dict. -/
def Details.getDuration : Details → Nat
  | none => 120
  | some d => d.duration

/-- `movie_details.get("description", "")` on a possibly-empty dict. -/
def Details.getDescription : Details → String
  | none => ""
  | some d => d.description

/-- `movie_details.get("trailer", "")` on a possibly-empty dict. -/
def Details.getTrailer : Details → String
  | none => ""
  | some d => d.trailer

/-- `movie_details.get("fsk", "")` on a possibly-empty dict. -/
def Details.getFsk : Details → String
  | none => ""
  | some d => d.fsk

/-- `movie_details.get("room", "")` on a possibly-empty dict. -/
def Details.getRoom : Details → String
  | none => ""
  | some d => d.room

/-- The extraction body of `get_movie_details` (src/main.py lines 64–98),
operating on an already-fetched document.  It is total: every selector
miss falls back to a default. -/
def extractDetails (doc : DetailDoc) : MovieDetails :=
  { description :=
      match doc.descNode with
      | none => ""
      | some t => pyStrip t
    duration :=
      match doc.durationNode with
      | none => 120
      | some t =>
        match searchDurationMin (stripChars t.toList) with
        | some n => n
        | none => 120
    fsk :=
      match doc.durationNode with
      | none => ""
      | some t =>
        match searchFSK (stripChars t.toList) with
        | some ds => String.mk ds
        | none => ""
    room :=
      match doc.roomNode with
      | none => ""
      | some t => pyStrip t
    trailer :=
      match doc.iframeSrcs.find? (fun s => containsSub ("youtube.com".toList) s.toList) with
      | some s => s
      | none => "" }

/-- One invocation of `get_movie_details`: the fetch oracle either yields
a document (extracted totally) or raises (any exception), in which case
the `except` branch returns the empty dict. -/
def getMovieDetailsPure (fetched : Option DetailDoc) : Details :=
  match fetched with
  | none => none
  | some doc => some (extractDetails doc)

/-! ## Event description (`_create_event_description`) -/

/-- Python `filter(None, lines)` over `str | None` entries: drops both
`None` and the falsy empty string. -/
def pyFilterTruthy (l : List (Option String)) : List String :=
  (l.filterMap id).filter (fun s => s ≠ "")

/-- `_create_event_description` (src/main.py lines 35–54): the fixed list
of lines, `None` for the conditionally-omitted ones, joined by `"\n\n"`
after dropping falsy entries. -/
def createEventDescription (d : MovieDetails) (bookingUrl : String) : String :=
  String.intercalate "\n\n" (pyFilterTruthy
    [ some d.description
    , some ""
    , some ("🕐 Dauer: " ++ toString d.duration ++ " Minuten")
    , if d.fsk ≠ "" then some ("🔞 FSK: " ++ d.fsk) else none
    , if d.room ≠ "" then some ("🏛️ Saal: " ++ d.room) else none
    , some ""
    , if d.trailer ≠ "" then some ("🎬 Trailer: " ++ d.trailer) else none
    , some ""
    , some ("🎟️ Tickets: " ++ bookingUrl) ])

/-! ## Datetimes

Python `datetime` objects are always valid by construction; here validity
is a separate predicate established at the construction sites the code
uses (`datetime(...)` in `_parse_date`, `.replace(hour=..., minute=...)`). -/

/-- The date part of a header column, `datetime(year, month, day)` at
midnight. -/
structure Date where
  year : Nat
  month : Nat
  day : Nat
deriving DecidableEq, Repr

/-- A timestamp as the events use it (seconds and finer are always 0 in
this program). -/
structure DateTime where
  year : Nat
  month : Nat
  day : Nat
  hour : Nat
  minute : Nat
deriving DecidableEq, Repr

/-- Proleptic Gregorian leap year rule, as `datetime` uses it. -/
def isLeapYear (y : Nat) : Bool :=
  decide ((y % 4 = 0 ∧ ¬ y % 100 = 0) ∨ y % 400 = 0)

/-- Days in a month (`0` on a month outside 1..12, which validity rules
out). -/
def daysInMonth (y m : Nat) : Nat :=
  match m with
  | 1 => 31
  | 2 => if isLeapYear y then 29 else 28
  | 3 => 31
  | 4 => 30
  | 5 => 31
  | 6 => 30
  | 7 => 31
  | 8 => 31
  | 9 => 30
  | 10 => 31
  | 11 => 30
  | 12 => 31
  | _ => 0

/-- Days from January 1 to the first of month `m` in year `y`. -/
def daysBeforeMonth (y m : Nat) : Nat :=
  (match m with
   | 1 => 0 | 2 => 31 | 3 => 59 | 4 => 90 | 5 => 120 | 6 => 151
   | 7 => 181 | 8 => 212 | 9 => 243 | 10 => 273 | 11 => 304 | 12 => 334
   | _ => 365)
  + (if 3 ≤ m ∧ isLeapYear y then 1 else 0)

/-- Leap years in `[0, y)` on the proleptic Gregorian calendar. -/
def leapsBefore (y : Nat) : Nat :=
  (y + 3) / 4 - (y + 99) / 100 + (y + 399) / 400

/-- Days from the epoch (year 0, January 1) to January 1 of year `y`. -/
def daysBeforeYear (y : Nat) : Nat := 365 * y + leapsBefore y

/-- Absolute day index of a datetime's date. -/
def toAbsDay (t : DateTime) : Nat :=
  daysBeforeYear t.year + daysBeforeMonth t.year t.month + (t.day - 1)

/-- Absolute minute index of a datetime: the linear timeline on which
`timedelta` arithmetic acts. -/
def toAbsMinutes (t : DateTime) : Nat :=
  (toAbsDay t * 24 + t.hour) * 60 + t.minute

/-- A structurally valid datetime (what every Python `datetime` object
satisfies). -/
def ValidDT (t : DateTime) : Prop :=
  1 ≤ t.month ∧ t.month ≤ 12 ∧ 1 ≤ t.day ∧ t.day ≤ daysInMonth t.year t.month
    ∧ t.hour < 24 ∧ t.minute < 60

instance (t : DateTime) : Decidable (ValidDT t) := by
  unfold ValidDT; infer_instance

/-- A structurally valid date. -/
def ValidDate (d : Date) : Prop :=
  1 ≤ d.month ∧ d.month ≤ 12 ∧ 1 ≤ d.day ∧ d.day ≤ daysInMonth d.year d.month

instance (d : Date) : Decidable (ValidDate d) := by
  unfold ValidDate; infer_instance

/-- One-minute successor with calendar carry. -/
def tick (t : DateTime) : DateTime :=
  if t.minute + 1 < 60 then { t with minute := t.minute + 1 }
  else if t.hour + 1 < 24 then { t with hour := t.hour + 1, minute := 0 }
  else if t.day + 1 ≤ daysInMonth t.year t.month then
    { t with day := t.day + 1, hour := 0, minute := 0 }
  else if t.month + 1 ≤ 12 then
    { t with month := t.month + 1, day := 1, hour := 0, minute := 0 }
  else
    { year := t.year + 1, month := 1, day := 1, hour := 0, minute := 0 }

/-- `t + timedelta(minutes := n)` (the program only ever adds nonnegative
minute counts): iterated one-minute successors. -/
def addMinutes (t : DateTime) : Nat → DateTime
  | 0 => t
  | n + 1 => addMinutes (tick t) n

/-- `date.replace(hour=h, minute=m)` on a midnight datetime: validates
the new fields (raising `ValueError` outside range, as `datetime.replace`
does) and keeps the date fields. -/
def dtReplaceHM (d : Date) (h m : Int) : Except PyErr DateTime :=
  if 0 ≤ h ∧ h < 24 ∧ 0 ≤ m ∧ m < 60 then
    .ok { year := d.year, month := d.month, day := d.day,
          hour := h.toNat, minute := m.toNat }
  else .error .valueError

/-- `_parse_date` (src/main.py lines 212–219): regex search for
`DD.MM.`; no match yields `None`; a match builds
`datetime(year, month, day)`, which raises `ValueError` on an
out-of-range month or day. The year is the current calendar year,
passed in. -/
def parseDate (year : Nat) (txt : String) : Except PyErr (Option Date) :=
  match searchDDMM txt.toList with
  | none => .ok none
  | some (d, m) =>
      if 1 ≤ m ∧ m ≤ 12 ∧ 1 ≤ d ∧ d ≤ daysInMonth year m then
        .ok (some { year := year, month := m, day := d })
      else .error .valueError

/-! ## Events and the assembly pipeline -/

/-- One calendar event, with the five properties `_create_movie_event`
adds. -/
structure CalEvent where
  summary : String
  dtstart : DateTime
  dtend : DateTime
  location : String
  description : String
deriving DecidableEq, Repr

/-- The calendar artifact: fixed identity metadata plus the added
events. -/
structure ICalendar where
  version : String
  prodid : String
  events : List CalEvent
deriving DecidableEq, Repr

/-- Effectful list traversal in `Except`, the embedding of both a
sequential `for` loop that can raise and of `asyncio.gather` over the
pure coroutines of this model: results keep input order and the first
exception propagates. -/
def exMapM (f : α → Except PyErr β) : List α → Except PyErr (List β)
  | [] => .ok []
  | a :: l =>
    match f a with
    | .error e => .error e
    | .ok b =>
      match exMapM f l with
      | .error e => .error e
      | .ok bs => .ok (b :: bs)

/-- The title built from a row's first anchor, `f"🎬 {movie_link.text.strip()}"`. -/
def mkTitle (a : Anchor) : String := "🎬 " ++ pyStrip a.text

/-- Lines 191–196 of `_create_movie_event`: take the time anchor's span
text (raising `AttributeError` when the span is missing), split the
stripped text on `:` and unpack exactly two `int()`s (raising
`ValueError` otherwise), then `date.replace(hour=hour, minute=minute)`
— which raises `AttributeError` when the paired date slot is `None` and
`ValueError` when hour or minute is out of range. -/
def parseStartTime (date : Option Date) (tl : Anchor) : Except PyErr DateTime :=
  match tl.spanText with
  | none => .error .attributeError
  | some st =>
    match splitOnChar ':' (stripChars st.toList) with
    | [hs, ms] =>
      match pyIntChars hs with
      | .error e => .error e
      | .ok h =>
        match pyIntChars ms with
        | .error e => .error e
        | .ok m =>
          match date with
          | none => .error .attributeError
          | some dd => dtReplaceHM dd h m
    | _ => .error .valueError

/-- `_create_movie_event` (src/main.py lines 190–203): compute the start
timestamp, then build the event; the end timestamp is the start plus the
movie's extracted duration in minutes. -/
def createMovieEvent (loc title : String) (date : Option Date) (tl : Anchor)
    (d : MovieDetails) : Except PyErr CalEvent :=
  match parseStartTime date tl with
  | .error e => .error e
  | .ok start =>
    .ok { summary := title
        , dtstart := start
        , dtend := addMinutes start d.duration
        , location := loc
        , description := createEventDescription d tl.href }

/-- The inner loop of `process_movie`: one event per time anchor of one
cell, against that cell's paired date. -/
def cellEvents (loc title : String) (d : MovieDetails) (date : Option Date)
    (cell : Cell) : Except PyErr (List CalEvent) :=
  exMapM (fun tl => createMovieEvent loc title date tl d) cell.anchors

/-- `process_movie` (src/main.py lines 167–183): `None` when the row has
no anchor or its details dict is empty; otherwise the events over
`zip(dates, row.find_all("td"))`, flattened in loop order. -/
def processMovie (loc : String) (dates : List (Option Date))
    (row : MovieRowHtml) (det : Details) : Except PyErr (Option (List CalEvent)) :=
  match row.firstAnchor, det with
  | none, _ => .ok none
  | some _, none => .ok none
  | some a, some d =>
    match exMapM (fun dc => cellEvents loc (mkTitle a) d dc.1 dc.2)
        (dates.zip row.cells) with
    | .error e => .error e
    | .ok evss => .ok (some evss.flatten)

/-- One fetch task as `_fetch_movie_details` creates it: the anchor's
`href` and the derived title. -/
structure FetchTask where
  url : String
  title : String
deriving DecidableEq, Repr

/-- The task-creation loop of `_fetch_movie_details` (src/main.py lines
154–163): one task per row that has an anchor, in row order; anchor-less
rows are skipped here (not by `_extract_table_data`). -/
def fetchMovieTasks : List MovieRowHtml → List FetchTask
  | [] => []
  | row :: rest =>
    match row.firstAnchor with
    | some a => { url := a.href, title := mkTitle a } :: fetchMovieTasks rest
    | none => fetchMovieTasks rest

/-- `asyncio.gather` over the created tasks: the `i`-th created task is
the `i`-th fetch invocation and lands in the `i`-th result slot. The
fetch oracle takes the invocation index and the url. -/
def fetchDetailsFrom (fetch : Nat → String → Option DetailDoc) :
    Nat → List FetchTask → List Details
  | _, [] => []
  | i, t :: ts => getMovieDetailsPure (fetch i t.url) :: fetchDetailsFrom fetch (i + 1) ts

/-- `_fetch_movie_details` (src/main.py lines 154–164). -/
def fetchMovieDetails (fetch : Nat → String → Option DetailDoc)
    (movies : List MovieRowHtml) : List Details :=
  fetchDetailsFrom fetch 0 (fetchMovieTasks movies)

/-- `_generate_movie_events` (src/main.py lines 166–188):
`zip(movies, movie_details)` processed by `process_movie`, gathered in
order. -/
def generateMovieEvents (loc : String) (movies : List MovieRowHtml)
    (dates : List (Option Date)) (details : List Details) :
    Except PyErr (List (Option (List CalEvent))) :=
  exMapM (fun rd => processMovie loc dates rd.1 rd.2) (movies.zip details)

/-- The date list of `_extract_table_data` (src/main.py lines 146–152):
header cells after the first, text stripped and newline-free, parsed;
`_parse_date` may raise out of the comprehension. -/
def headerDates (year : Nat) (table : SchedTable) : Except PyErr (List (Option Date)) :=
  exMapM (fun t => parseDate year (removeNewlines (pyStrip t))) (table.headerCells.drop 1)

/-- `_add_events_to_calendar` (src/main.py lines 205–210): groups that
are `None` or the falsy empty list contribute nothing; others append
their events in order. -/
def addEventsToCalendar (groups : List (Option (List CalEvent))) : List CalEvent :=
  groups.foldl
    (fun acc g =>
      match g with
      | some (e :: es) => acc ++ (e :: es)
      | _ => acc) []

/-- The venue address constant of `__init__`. -/
def theLocation : String :=
  "Kinowelt am Ammersee\nFischerei 12\n86911 Dießen am Ammersee"

/-- `scrape_movies` (src/main.py lines 107–137): `None` when the
schedule page fetch raises, when the schedule table is missing, or when
any exception escapes the date extraction or the event generation
(caught by the enclosing `try`); otherwise the finished calendar with
fixed identity metadata. -/
def scrapeMovies (year : Nat) (loc : String)
    (fetch : Nat → String → Option DetailDoc) (page : Option SchedulePage) :
    Option ICalendar :=
  match page with
  | none => none
  | some pg =>
    match pg.scheduleTable with
    | none => none
    | some table =>
      match headerDates year table with
      | .error _ => none
      | .ok dates =>
        match generateMovieEvents loc table.bodyRows dates
            (fetchMovieDetails fetch table.bodyRows) with
        | .error _ => none
        | .ok groups =>
          some { version := "2.0"
               , prodid := "-//Kino Dießen Movie Schedule//diessen.de//"
               , events := addEventsToCalendar groups }

/-! ## The concurrency model of the detail fetches

`get_movie_details` wraps each fetch in `async with self.semaphore`
where `self.semaphore = asyncio.Semaphore(max_concurrent)`
(src/main.py lines 22–26 and 56–61).  Each task acquires a permit, runs
its fetch, and releases the permit; the scheduler interleaves tasks
arbitrarily.  This is modelled as a step relation over task phases. -/

/-- The default `max_concurrent` of `__init__`. -/
def defaultMaxConcurrent : Nat := 50

/-- Where one fetch task stands relative to the semaphore. -/
inductive TaskPhase where
  | queued
  | running
  | done
deriving DecidableEq, Repr

/-- Global state: each task's phase and the semaphore's free permits. -/
structure SemState where
  tasks : List TaskPhase
  avail : Nat
deriving DecidableEq, Repr

/-- Number of fetches in flight. -/
def SemState.inFlight (s : SemState) : Nat :=
  s.tasks.countP (fun p => p == TaskPhase.running)

/-- Initial state: `n` queued tasks, `limit` free permits. -/
def initSem (limit n : Nat) : SemState :=
  { tasks := List.replicate n TaskPhase.queued, avail := limit }

/-- One scheduler step: a queued task acquires a free permit and starts
its fetch, or a running task finishes and releases its permit.  A task
blocked on `acquire` (no free permit) cannot start. -/
inductive SemStep : SemState → SemState → Prop where
  | acquire (s : SemState) (i : Nat)
      (h : s.tasks[i]? = some TaskPhase.queued) (hs : 0 < s.avail) :
      SemStep s { tasks := s.tasks.set i TaskPhase.running, avail := s.avail - 1 }
  | release (s : SemState) (i : Nat)
      (h : s.tasks[i]? = some TaskPhase.running) :
      SemStep s { tasks := s.tasks.set i TaskPhase.done, avail := s.avail + 1 }

/-- States reachable from the initial one under any interleaving. -/
def SemReach (limit n : Nat) (s : SemState) : Prop :=
  Relation.ReflTransGen SemStep (initSem limit n) s

/-! ## Concrete exemplar data -/

/-- A detail page carrying all fields. -/
def docA : DetailDoc :=
  { descNode := some "A great film"
  , durationNode := some "100 Min. FSK: 12"
  , roomNode := some "Saal 1"
  , iframeSrcs := ["https://www.youtube.com/embed/x"] }

/-- Its extracted details. -/
def detA : MovieDetails := extractDetails docA

/-- A detail page whose duration text matches the pattern with the
integer 0. -/
def docZero : DetailDoc :=
  { descNode := none, durationNode := some "0 Min.", roomNode := none, iframeSrcs := [] }

/-- A title anchor. -/
def anchA : Anchor := { text := "Movie A", href := "/filme/a", spanText := none }

/-- A time anchor for 18:00. -/
def tlA : Anchor := { text := "", href := "/book/1", spanText := some "18:00" }

/-- A time anchor for 20:30. -/
def tlB : Anchor := { text := "", href := "/book/2", spanText := some "20:30" }

/-- A row with a title anchor and two screening cells of one screening
each. -/
def rowA : MovieRowHtml :=
  { firstAnchor := some anchA, cells := [⟨[tlA]⟩, ⟨[tlB]⟩] }

/-- A row with a title anchor and no cells. -/
def rowS : MovieRowHtml := { firstAnchor := some anchA, cells := [] }

/-- A second cell-less row. -/
def rowT : MovieRowHtml :=
  { firstAnchor := some { text := "Movie B", href := "/filme/b", spanText := none }
  , cells := [] }

/-- A row without any anchor. -/
def rowNoAnchor : MovieRowHtml := { firstAnchor := none, cells := [] }

/-- Two parsed header dates. -/
def dates2 : List (Option Date) :=
  [some { year := 2026, month := 3, day := 15 }, some { year := 2026, month := 3, day := 16 }]

/-- A single parsed header date. -/
def dates1 : List (Option Date) := [some { year := 2026, month := 3, day := 15 }]

/-- A fetch oracle that always succeeds with `docA`. -/
def fetchAllA : Nat → String → Option DetailDoc := fun _ _ => some docA

/-- `fetchAllA` with invocation 0 made to fail. -/
def fetchFail0 : Nat → String → Option DetailDoc :=
  fun i u => if i = 0 then none else fetchAllA i u

/-- A schedule page whose second header cell does not parse as a date
and whose single row has a screening in that column. -/
def pageBadDate : SchedulePage :=
  { scheduleTable := some { headerCells := ["Film", "Demnächst"], bodyRows := [rowA] } }

/-- An empty cell (used as a positional default, mirroring that
`zip` never actually reads past the shorter list). -/
def emptyCell : Cell := ⟨[]⟩

/-- The event produced for `rowA`'s 18:00 screening on 15.03.2026 with
details `detA`. -/
def evA : CalEvent :=
  { summary := "🎬 Movie A"
  , dtstart := { year := 2026, month := 3, day := 15, hour := 18, minute := 0 }
  , dtend := { year := 2026, month := 3, day := 15, hour := 19, minute := 40 }
  , location := theLocation
  , description := "A great film\n\n🕐 Dauer: 100 Minuten\n\n🔞 FSK: 12\n\n🏛️ Saal: Saal 1\n\n🎬 Trailer: https://www.youtube.com/embed/x\n\n🎟️ Tickets: /book/1" }

/-! ## Helper lemmas: `exMapM` and lists -/

theorem exMapM_ok_length {α β : Type} {f : α → Except PyErr β} :
    ∀ (l : List α) (bs : List β), exMapM f l = .ok bs → bs.length = l.length := by
  intro l
  induction l with
  | nil => intro bs h; cases h; rfl
  | cons a t ih =>
    intro bs h
    unfold exMapM at h
    cases hfa : f a with
    | error e => rw [hfa] at h; cases h
    | ok b =>
      rw [hfa] at h
      cases ht : exMapM f t with
      | error e => rw [ht] at h; cases h
      | ok tbs =>
        rw [ht] at h
        cases h
        simp [ih tbs ht]

theorem exMapM_not_ok_of_mem {α β : Type} {f : α → Except PyErr β} {x : α} :
    ∀ (l : List α), x ∈ l → (∀ b, f x ≠ .ok b) →
      ∀ bs, exMapM f l ≠ .ok bs := by
  intro l
  induction l with
  | nil => intro hx; cases hx
  | cons a t ih =>
    intro hx hbad bs h
    unfold exMapM at h
    cases hfa : f a with
    | error e => rw [hfa] at h; cases h
    | ok b =>
      rw [hfa] at h
      cases ht : exMapM f t with
      | error e => rw [ht] at h; cases h
      | ok tbs =>
        rcases List.mem_cons.mp hx with rfl | hxt
        · exact hbad b hfa
        · exact ih hxt hbad tbs ht

theorem exMapM_mem_ok {α β : Type} {f : α → Except PyErr β} :
    ∀ (l : List α) (bs : List β), exMapM f l = .ok bs →
      ∀ b ∈ bs, ∃ a ∈ l, f a = .ok b := by
  intro l
  induction l with
  | nil => intro bs h; cases h; intro b hb; cases hb
  | cons a t ih =>
    intro bs h
    unfold exMapM at h
    cases hfa : f a with
    | error e => rw [hfa] at h; cases h
    | ok b0 =>
      rw [hfa] at h
      cases ht : exMapM f t with
      | error e => rw [ht] at h; cases h
      | ok tbs =>
        rw [ht] at h
        cases h
        intro b hb
        rcases List.mem_cons.mp hb with rfl | hbt
        · exact ⟨a, List.mem_cons_self a t, hfa⟩
        · obtain ⟨a', ha', hfa'⟩ := ih tbs ht b hbt
          exact ⟨a', List.mem_cons_of_mem a ha', hfa'⟩

theorem exMapM_map {α β γ : Type} {f : β → Except PyErr γ} {g : α → β} :
    ∀ (zs : List α), exMapM f (zs.map g) = exMapM (fun u => f (g u)) zs := by
  intro zs
  induction zs with
  | nil => rfl
  | cons z zt ihm => unfold exMapM; simp only [List.map_cons]; rw [ihm]

theorem zip_getElem? {α β : Type} :
    ∀ (xs : List α) (ys : List β) (n : Nat) (x : α) (y : β),
      xs[n]? = some x → ys[n]? = some y → (xs.zip ys)[n]? = some (x, y) := by
  intro xs
  induction xs with
  | nil => intro ys n x y hx; cases hx
  | cons x0 xt ihz =>
    intro ys n x y hx hy
    cases ys with
    | nil => cases hy
    | cons y0 yt =>
      cases n with
      | zero =>
        simp only [List.getElem?_cons_zero] at hx hy
        cases hx; cases hy
        simp [List.zip_cons_cons]
      | succ m =>
        simp only [List.zip_cons_cons, List.getElem?_cons_succ] at *
        exact ihz yt m x y hx hy

theorem zip_eq_range_map {α β : Type} (da : α) (db : β) :
    ∀ (l₁ : List α) (l₂ : List β),
      l₁.zip l₂ = (List.range (min l₁.length l₂.length)).map
        (fun i => (l₁.getD i da, l₂.getD i db)) := by
  intro l₁
  induction l₁ with
  | nil => intro l₂; simp
  | cons a t ih =>
    intro l₂
    cases l₂ with
    | nil => simp
    | cons b s =>
      simp only [List.zip_cons_cons, List.length_cons, Nat.succ_min_succ,
        List.range_succ_eq_map, List.map_cons, List.map_map]
      rw [ih s]
      simp only [List.getD_cons_zero]
      congr 1

theorem isPrefixOf_exists {l₁ l₂ : List Char} (h : List.isPrefixOf l₁ l₂ = true) :
    ∃ t, l₂ = l₁ ++ t := by
  induction l₁ generalizing l₂ with
  | nil => exact ⟨l₂, rfl⟩
  | cons a t ih =>
    cases l₂ with
    | nil => simp [List.isPrefixOf] at h
    | cons b s =>
      simp only [List.isPrefixOf, Bool.and_eq_true, beq_iff_eq] at h
      obtain ⟨rfl, hrest⟩ := h
      obtain ⟨u, hu⟩ := ih hrest
      exact ⟨u, by rw [hu]; rfl⟩

theorem all_takeWhile {p : Char → Bool} :
    ∀ (cs : List Char), (cs.takeWhile p).all p = true := by
  intro cs
  induction cs with
  | nil => rfl
  | cons c0 ct ihw =>
    by_cases hpc : p c0
    · simp [List.takeWhile_cons, hpc, ihw]
    · simp [List.takeWhile_cons, hpc]

/-! ## Helper lemmas: calendar arithmetic -/

theorem isLeapYear_iff (y : Nat) :
    isLeapYear y = true ↔ ((y % 4 = 0 ∧ ¬ y % 100 = 0) ∨ y % 400 = 0) := by
  simp [isLeapYear]

theorem leapsBefore_succ (y : Nat) :
    leapsBefore (y + 1) = leapsBefore y + (if isLeapYear y then 1 else 0) := by
  by_cases h : isLeapYear y = true
  · rw [if_pos h]
    rw [isLeapYear_iff] at h
    unfold leapsBefore
    omega
  · rw [if_neg h]
    rw [isLeapYear_iff] at h
    push_neg at h
    unfold leapsBefore
    omega

theorem daysBeforeYear_succ (y : Nat) :
    daysBeforeYear (y + 1) = daysBeforeYear y + 365 + (if isLeapYear y then 1 else 0) := by
  unfold daysBeforeYear
  rw [leapsBefore_succ]
  ring

theorem daysBeforeMonth_succ (y m : Nat) (h1 : 1 ≤ m) (h2 : m ≤ 11) :
    daysBeforeMonth y (m + 1) = daysBeforeMonth y m + daysInMonth y m := by
  interval_cases m <;>
    cases hL : isLeapYear y <;>
      simp [daysBeforeMonth, daysInMonth, hL]

theorem one_le_daysInMonth (y m : Nat) (h1 : 1 ≤ m) (h2 : m ≤ 12) :
    1 ≤ daysInMonth y m := by
  interval_cases m <;> cases hL : isLeapYear y <;> simp [daysInMonth, hL]

theorem daysBeforeMonth_one (y : Nat) : daysBeforeMonth y 1 = 0 := by
  simp [daysBeforeMonth]

theorem daysInMonth_one (y : Nat) : daysInMonth y 1 = 31 := rfl

theorem daysInMonth_twelve (y : Nat) : daysInMonth y 12 = 31 := rfl

theorem daysBeforeMonth_twelve (y : Nat) :
    daysBeforeMonth y 12 = 334 + (if isLeapYear y then 1 else 0) := by
  simp [daysBeforeMonth]

theorem tick_valid (t : DateTime) (h : ValidDT t) : ValidDT (tick t) := by
  obtain ⟨hm1, hm2, hd1, hd2, hh, hmin⟩ := h
  have hnext : t.month + 1 ≤ 12 → 1 ≤ daysInMonth t.year (t.month + 1) :=
    fun hc => one_le_daysInMonth t.year (t.month + 1) (by omega) hc
  have h31 := daysInMonth_one (t.year + 1)
  unfold tick
  split_ifs with h1 h2 h3 h4 <;> unfold ValidDT <;> dsimp only <;>
    [omega; omega; omega; (exact ⟨by omega, h4, by omega, hnext h4, by omega, by omega⟩); omega]

theorem toAbsMinutes_tick (t : DateTime) (h : ValidDT t) :
    toAbsMinutes (tick t) = toAbsMinutes t + 1 := by
  obtain ⟨hm1, hm2, hd1, hd2, hh, hmin⟩ := h
  unfold tick
  split_ifs with h1 h2 h3 h4
  · unfold toAbsMinutes toAbsDay
    dsimp only
    omega
  · unfold toAbsMinutes toAbsDay
    dsimp only
    omega
  · unfold toAbsMinutes toAbsDay
    dsimp only
    omega
  · unfold toAbsMinutes toAbsDay
    dsimp only
    rw [daysBeforeMonth_succ t.year t.month hm1 (by omega)]
    omega
  · have hm12 : t.month = 12 := by omega
    rw [hm12] at h3 hd2
    rw [daysInMonth_twelve] at h3 hd2
    unfold toAbsMinutes toAbsDay
    dsimp only
    rw [hm12, daysBeforeYear_succ, daysBeforeMonth_one, daysBeforeMonth_twelve]
    cases hL : isLeapYear t.year <;> simp [hL] <;> omega

theorem addMinutes_valid_toAbs :
    ∀ (n : Nat) (t : DateTime), ValidDT t →
      ValidDT (addMinutes t n) ∧ toAbsMinutes (addMinutes t n) = toAbsMinutes t + n := by
  intro n
  induction n with
  | zero => intro t h; exact ⟨h, rfl⟩
  | succ k ih =>
    intro t h
    obtain ⟨hv, he⟩ := ih (tick t) (tick_valid t h)
    refine ⟨hv, ?_⟩
    have hstep : addMinutes t (k + 1) = addMinutes (tick t) k := rfl
    rw [hstep, he, toAbsMinutes_tick t h]
    omega

theorem dtReplaceHM_valid (d : Date) (h m : Int) (t : DateTime)
    (hd : ValidDate d) (he : dtReplaceHM d h m = .ok t) : ValidDT t := by
  unfold dtReplaceHM at he
  split_ifs at he with hc
  · cases he
    obtain ⟨h1, h2, h3, h4⟩ := hd
    unfold ValidDT
    dsimp only
    omega

/-! ## Helper lemmas: the embedded program -/

theorem parseStartTime_ok_inv {date : Option Date} {tl : Anchor} {start : DateTime}
    (h : parseStartTime date tl = .ok start) :
    ∃ dd hh mm, date = some dd ∧ dtReplaceHM dd hh mm = .ok start := by
  unfold parseStartTime at h
  split at h
  · cases h
  · split at h
    · split at h
      · cases h
      · split at h
        · cases h
        · split at h
          · cases h
          · rename_i dd
            exact ⟨dd, _, _, rfl, h⟩
    · cases h

theorem parseStartTime_none_not_ok (tl : Anchor) :
    ∀ b, parseStartTime none tl ≠ .ok b := by
  intro b h
  obtain ⟨dd, hh, mm, hdate, _⟩ := parseStartTime_ok_inv h
  cases hdate

theorem createMovieEvent_ok_inv {loc title : String} {date : Option Date} {tl : Anchor}
    {d : MovieDetails} {e : CalEvent}
    (h : createMovieEvent loc title date tl d = .ok e) :
    ∃ start, parseStartTime date tl = .ok start
      ∧ e.dtstart = start ∧ e.dtend = addMinutes start d.duration := by
  unfold createMovieEvent at h
  split at h
  · cases h
  · rename_i start hst
    cases h
    exact ⟨start, hst, rfl, rfl⟩

theorem createMovieEvent_none_not_ok (loc title : String) (tl : Anchor)
    (d : MovieDetails) : ∀ e, createMovieEvent loc title none tl d ≠ .ok e := by
  intro e h
  obtain ⟨start, hst, _, _⟩ := createMovieEvent_ok_inv h
  exact parseStartTime_none_not_ok tl start hst

theorem cellEvents_none_not_ok (loc title : String) (d : MovieDetails) (cell : Cell)
    (hne : cell.anchors ≠ []) : ∀ l, cellEvents loc title d none cell ≠ .ok l := by
  intro l h
  cases hca : cell.anchors with
  | nil => exact hne hca
  | cons a rest =>
    unfold cellEvents at h
    rw [hca] at h
    unfold exMapM at h
    cases hcme : createMovieEvent loc title none a d with
    | error e => rw [hcme] at h; cases h
    | ok e => exact createMovieEvent_none_not_ok loc title a d e hcme

theorem processMovie_det_none (loc : String) (dates : List (Option Date))
    (row : MovieRowHtml) : processMovie loc dates row none = .ok none := by
  unfold processMovie
  cases hfa : row.firstAnchor <;> rfl

theorem processMovie_no_anchor (loc : String) (dates : List (Option Date))
    (row : MovieRowHtml) (det : Details) (h : row.firstAnchor = none) :
    processMovie loc dates row det = .ok none := by
  unfold processMovie
  rw [h]

theorem fetchDetailsFrom_length (fetch : Nat → String → Option DetailDoc) :
    ∀ (ts : List FetchTask) (i : Nat), (fetchDetailsFrom fetch i ts).length = ts.length := by
  intro ts
  induction ts with
  | nil => intro i; rfl
  | cons t rest ih => intro i; simp [fetchDetailsFrom, ih]

theorem fetchDetailsFrom_getElem? (fetch : Nat → String → Option DetailDoc) :
    ∀ (ts : List FetchTask) (i k : Nat),
      (fetchDetailsFrom fetch i ts)[k]? =
        (ts[k]?).map (fun t => getMovieDetailsPure (fetch (i + k) t.url)) := by
  intro ts
  induction ts with
  | nil => intro i k; rfl
  | cons t rest ih =>
    intro i k
    cases k with
    | zero => simp [fetchDetailsFrom]
    | succ k =>
      simp only [fetchDetailsFrom, List.getElem?_cons_succ]
      have hik : i + (k + 1) = (i + 1) + k := by omega
      rw [hik]
      exact ih (i + 1) k

theorem fetchMovieTasks_eq_filterMap :
    ∀ (movies : List MovieRowHtml),
      fetchMovieTasks movies = movies.filterMap
        (fun r => r.firstAnchor.map
          (fun a => ({ url := a.href, title := mkTitle a } : FetchTask))) := by
  intro movies
  induction movies with
  | nil => rfl
  | cons r rest ih =>
    cases hfa : r.firstAnchor <;>
      simp [fetchMovieTasks, List.filterMap_cons, hfa, ih]

theorem fetchMovieTasks_length_of_anchors :
    ∀ (movies : List MovieRowHtml), (∀ r ∈ movies, r.firstAnchor.isSome = true) →
      (fetchMovieTasks movies).length = movies.length := by
  intro movies
  induction movies with
  | nil => intro _; rfl
  | cons r rest ih =>
    intro hall
    have hr := hall r (List.mem_cons_self r rest)
    cases hfa : r.firstAnchor with
    | none => rw [hfa] at hr; cases hr
    | some a =>
      simp only [fetchMovieTasks, hfa, List.length_cons]
      rw [ih (fun x hx => hall x (List.mem_cons_of_mem r hx))]

theorem fetchMovieDetails_fail_at (fetch fetch' : Nat → String → Option DetailDoc)
    (j : Nat) (movies : List MovieRowHtml)
    (hAgree : ∀ i, i ≠ j → fetch' i = fetch i)
    (hFail : ∀ u, fetch' j u = none) :
    fetchMovieDetails fetch' movies = (fetchMovieDetails fetch movies).set j none := by
  apply List.ext_getElem?
  intro k
  unfold fetchMovieDetails
  rw [List.getElem?_set, fetchDetailsFrom_getElem?, fetchDetailsFrom_getElem?,
    fetchDetailsFrom_length]
  by_cases hk : j = k
  · subst hk
    rw [if_pos rfl]
    cases ht : (fetchMovieTasks movies)[j]? with
    | none =>
      have hlen : ¬ j < (fetchMovieTasks movies).length := by
        intro hlt
        rw [List.getElem?_eq_getElem hlt] at ht
        cases ht
      rw [if_neg hlen]
      rfl
    | some t =>
      have hlen : j < (fetchMovieTasks movies).length :=
        (List.getElem?_eq_some_iff.mp ht).1
      rw [if_pos hlen]
      simp [getMovieDetailsPure, hFail]
  · rw [if_neg hk]
    rw [hAgree (0 + k) (by omega)]

theorem exMapM_zip_set_none (loc : String) (dates : List (Option Date)) :
    ∀ (ms : List MovieRowHtml) (ds : List Details) (j : Nat)
      (gs : List (Option (List CalEvent))),
      exMapM (fun rd => processMovie loc dates rd.1 rd.2) (ms.zip ds) = .ok gs →
      exMapM (fun rd => processMovie loc dates rd.1 rd.2) (ms.zip (ds.set j none))
        = .ok (gs.set j none) := by
  intro ms
  induction ms with
  | nil =>
    intro ds j gs h
    cases h
    rfl
  | cons m mt ih =>
    intro ds j gs h
    cases ds with
    | nil =>
      cases h
      rfl
    | cons d dt =>
      simp only [List.zip_cons_cons] at h
      unfold exMapM at h
      dsimp only at h
      cases hpm : processMovie loc dates m d with
      | error e => rw [hpm] at h; cases h
      | ok g0 =>
        rw [hpm] at h
        cases hrest : exMapM (fun rd => processMovie loc dates rd.1 rd.2) (mt.zip dt) with
        | error e => rw [hrest] at h; cases h
        | ok gt =>
          rw [hrest] at h
          cases h
          cases j with
          | zero =>
            show exMapM _ ((m, none) :: mt.zip dt) = .ok (none :: gt)
            unfold exMapM
            dsimp only
            rw [processMovie_det_none, hrest]
          | succ k =>
            show exMapM _ ((m, d) :: mt.zip (dt.set k none)) = .ok (g0 :: gt.set k none)
            unfold exMapM
            dsimp only
            rw [hpm, ih dt k gt hrest]

theorem processMovie_reduce (loc : String) (dates : List (Option Date))
    (row : MovieRowHtml) (a : Anchor) (d : MovieDetails) (ha : row.firstAnchor = some a) :
    processMovie loc dates row (some d)
      = match exMapM (fun dc => cellEvents loc (mkTitle a) d dc.1 dc.2)
            (dates.zip row.cells) with
        | .error e => .error e
        | .ok evss => .ok (some evss.flatten) := by
  unfold processMovie
  rw [ha]

theorem processMovie_not_ok_of_bad_date (loc : String) (dates : List (Option Date))
    (row : MovieRowHtml) (a : Anchor) (d : MovieDetails) (k : Nat) (cell : Cell)
    (ha : row.firstAnchor = some a)
    (hdk : dates[k]? = some none)
    (hck : row.cells[k]? = some cell)
    (hanch : cell.anchors ≠ []) :
    ∀ g, processMovie loc dates row (some d) ≠ .ok g := by
  intro g h
  rw [processMovie_reduce loc dates row a d ha] at h
  cases hm : exMapM (fun dc => cellEvents loc (mkTitle a) d dc.1 dc.2)
      (dates.zip row.cells) with
  | error e => rw [hm] at h; cases h
  | ok evss =>
    have hzmem : ((none : Option Date), cell) ∈ dates.zip row.cells :=
      List.getElem?_mem (zip_getElem? dates row.cells k none cell hdk hck)
    exact exMapM_not_ok_of_mem (dates.zip row.cells) hzmem
      (fun l hl => cellEvents_none_not_ok loc (mkTitle a) d cell hanch l hl) evss hm

theorem generate_not_ok_of_member (loc : String) (dates : List (Option Date))
    (movies : List MovieRowHtml) (details : List Details) (j : Nat)
    (row : MovieRowHtml) (det : Details)
    (hj : (movies.zip details)[j]? = some (row, det))
    (hbad : ∀ g, processMovie loc dates row det ≠ .ok g) :
    ∀ gs, generateMovieEvents loc movies dates details ≠ .ok gs := by
  intro gs h
  unfold generateMovieEvents at h
  exact exMapM_not_ok_of_mem (movies.zip details) (List.getElem?_mem hj)
    (fun g hg => hbad g hg) gs h

theorem zip_cellEvents_count (loc title : String) (d : MovieDetails) :
    ∀ (dates : List (Option Date)) (cells : List Cell) (evss : List (List CalEvent)),
      exMapM (fun dc => cellEvents loc title d dc.1 dc.2) (dates.zip cells) = .ok evss →
      evss.flatten.length
        = ((cells.take dates.length).map (fun c => c.anchors.length)).sum := by
  intro dates
  induction dates with
  | nil => intro cells evss h; cases h; rfl
  | cons od ds ih =>
    intro cells evss h
    cases cells with
    | nil => cases h; simp
    | cons c cs =>
      simp only [List.zip_cons_cons] at h
      unfold exMapM at h
      dsimp only at h
      cases hce : cellEvents loc title d od c with
      | error e => rw [hce] at h; cases h
      | ok l1 =>
        rw [hce] at h
        cases hrest : exMapM (fun dc => cellEvents loc title d dc.1 dc.2) (ds.zip cs) with
        | error e => rw [hrest] at h; cases h
        | ok ls =>
          rw [hrest] at h
          cases h
          have hl1 : l1.length = c.anchors.length := by
            unfold cellEvents at hce
            exact exMapM_ok_length c.anchors l1 hce
          simp only [List.flatten_cons, List.length_append, List.length_cons,
            List.take_succ_cons, List.map_cons, List.sum_cons]
          rw [hl1, ih cs ls hrest]

/-! ## Helper lemmas: the semaphore model -/

theorem countP_replicate_zero (n : Nat) :
    (List.replicate n TaskPhase.queued).countP (fun p => p == TaskPhase.running) = 0 := by
  induction n with
  | zero => rfl
  | succ k ih => simp [List.replicate_succ, List.countP_cons, ih]

theorem countP_set_add {α : Type} (p : α → Bool) :
    ∀ (l : List α) (i : Nat) (x y : α), l[i]? = some y →
      (l.set i x).countP p + (if p y then 1 else 0)
        = l.countP p + (if p x then 1 else 0) := by
  intro l
  induction l with
  | nil => intro i x y hy; cases hy
  | cons a t ih =>
    intro i x y hy
    cases i with
    | zero =>
      simp only [List.getElem?_cons_zero] at hy
      cases hy
      simp only [List.set_cons_zero, List.countP_cons]
      by_cases hx : p x = true <;> by_cases ha2 : p a = true <;> simp [hx, ha2]
    | succ k =>
      simp only [List.getElem?_cons_succ] at hy
      simp only [List.set_cons_succ, List.countP_cons]
      have := ih k x y hy
      omega

theorem semInFlight_avail (limit n : Nat) :
    ∀ (s : SemState), SemReach limit n s → s.inFlight + s.avail = limit := by
  intro s h
  unfold SemReach at h
  induction h with
  | refl => simp [initSem, SemState.inFlight, countP_replicate_zero]
  | tail hsteps hstep ih =>
    cases hstep with
    | acquire i hq hs =>
      have hc := countP_set_add (fun p => p == TaskPhase.running) _ i
        TaskPhase.running TaskPhase.queued hq
      simp only [SemState.inFlight] at ih ⊢
      simp at hc
      omega
    | release i hr2 =>
      have hc := countP_set_add (fun p => p == TaskPhase.running) _ i
        TaskPhase.done TaskPhase.running hr2
      simp only [SemState.inFlight] at ih ⊢
      simp at hc
      omega

/-! ## Helper lemmas: the duration regex -/

theorem searchDurationMin_sound :
    ∀ (l : List Char) (n : Nat), searchDurationMin l = some n → MinPatternMatch l n := by
  intro l
  induction l with
  | nil => intro n h; cases h
  | cons c rest ih =>
    intro n h
    unfold searchDurationMin at h
    by_cases hc : c.isDigit = true
    · rw [if_pos hc] at h
      by_cases hp : List.isPrefixOf ("Min.".toList)
          (((c :: rest).dropWhile Char.isDigit).dropWhile isPySpace) = true
      · rw [if_pos hp] at h
        cases h
        obtain ⟨suf, hsuf⟩ := isPrefixOf_exists hp
        refine ⟨[], (c :: rest).takeWhile Char.isDigit,
          ((c :: rest).dropWhile Char.isDigit).takeWhile isPySpace, suf, ?_, ?_,
          all_takeWhile _, all_takeWhile _, rfl⟩
        · rw [List.nil_append, List.append_assoc, List.append_assoc, ← hsuf,
            List.takeWhile_append_dropWhile, List.takeWhile_append_dropWhile]
        · simp [List.takeWhile_cons, hc]
      · rw [if_neg hp] at h
        obtain ⟨pre, ds, ws, suf, heq, hne, hdig, hws, hval⟩ := ih n h
        exact ⟨c :: pre, ds, ws, suf, by simp [heq, List.append_assoc], hne, hdig, hws, hval⟩
    · rw [if_neg hc] at h
      obtain ⟨pre, ds, ws, suf, heq, hne, hdig, hws, hval⟩ := ih n h
      exact ⟨c :: pre, ds, ws, suf, by simp [heq, List.append_assoc], hne, hdig, hws, hval⟩

theorem isPySpace_not_digit {c : Char} (h : isPySpace c = true) : c.isDigit = false := by
  simp only [isPySpace, Bool.or_eq_true, decide_eq_true_eq] at h
  rcases h with ((((h | h) | h) | h) | h) | h <;> subst h <;> decide

theorem dropWhile_append_all {p : Char → Bool} :
    ∀ (xs ys : List Char), xs.all p = true →
      List.dropWhile p (xs ++ ys) = List.dropWhile p ys := by
  intro xs ys
  induction xs with
  | nil => intro _; rfl
  | cons c ct ihd =>
    intro hall
    simp only [List.all_cons, Bool.and_eq_true] at hall
    rw [List.cons_append, List.dropWhile_cons, if_pos hall.1]
    exact ihd hall.2

theorem dropWhile_head_false {p : Char → Bool} (c : Char) (cs : List Char)
    (h : p c = false) : List.dropWhile p (c :: cs) = c :: cs := by
  rw [List.dropWhile_cons, if_neg (by simp [h])]

theorem isPrefixOf_append_self : ∀ (xs ys : List Char),
    List.isPrefixOf xs (xs ++ ys) = true := by
  intro xs ys
  induction xs with
  | nil => simp [List.isPrefixOf]
  | cons c ct ihp => simp [List.isPrefixOf, ihp]

/-- Completeness of the duration scan: wherever the text decomposes as
digits, whitespace, `Min.`, the scan finds some match. -/
theorem searchDurationMin_complete :
    ∀ (pre ds ws suf : List Char), ds ≠ [] → ds.all Char.isDigit = true →
      ws.all isPySpace = true →
      ∃ m, searchDurationMin (pre ++ ds ++ ws ++ ("Min.".toList) ++ suf) = some m := by
  intro pre
  induction pre with
  | nil =>
    intro ds ws suf hne hdig hws
    cases ds with
    | nil => exact absurd rfl hne
    | cons d0 dt =>
      have hd0 : d0.isDigit = true := by
        simp only [List.all_cons, Bool.and_eq_true] at hdig
        exact hdig.1
      simp only [List.nil_append, List.append_assoc, List.cons_append]
      have hdrop1 : List.dropWhile Char.isDigit
          (d0 :: (dt ++ (ws ++ ("Min.".toList ++ suf))))
          = ws ++ ("Min.".toList ++ suf) := by
        have h1 : List.dropWhile Char.isDigit
            ((d0 :: dt) ++ (ws ++ ("Min.".toList ++ suf)))
            = List.dropWhile Char.isDigit (ws ++ ("Min.".toList ++ suf)) :=
          dropWhile_append_all (d0 :: dt) _ hdig
        rw [List.cons_append] at h1
        rw [h1]
        cases ws with
        | nil =>
          rw [List.nil_append]
          rw [show ("Min.".toList ++ suf) = 'M' :: ("in.".toList ++ suf) from rfl]
          exact dropWhile_head_false 'M' _ rfl
        | cons w wt =>
          have hw : isPySpace w = true := by
            simp only [List.all_cons, Bool.and_eq_true] at hws
            exact hws.1
          rw [List.cons_append]
          exact dropWhile_head_false w _ (isPySpace_not_digit hw)
      have hdrop2 : List.dropWhile isPySpace (ws ++ ("Min.".toList ++ suf))
          = "Min.".toList ++ suf := by
        rw [dropWhile_append_all ws _ hws]
        rw [show ("Min.".toList ++ suf) = 'M' :: ("in.".toList ++ suf) from rfl]
        exact dropWhile_head_false 'M' _ rfl
      unfold searchDurationMin
      rw [if_pos hd0, if_pos (by rw [hdrop1, hdrop2]; exact isPrefixOf_append_self _ _)]
      exact ⟨_, rfl⟩
  | cons c pt ihp =>
    intro ds ws suf hne hdig hws
    obtain ⟨m, hm⟩ := ihp ds ws suf hne hdig hws
    simp only [List.cons_append]
    unfold searchDurationMin
    by_cases hc : c.isDigit = true
    · rw [if_pos hc]
      by_cases hp : List.isPrefixOf ("Min.".toList)
          (List.dropWhile isPySpace
            (List.dropWhile Char.isDigit
              (c :: (pt ++ ds ++ ws ++ ("Min.".toList) ++ suf)))) = true
      · rw [if_pos hp]
        exact ⟨_, rfl⟩
      · rw [if_neg hp]
        exact ⟨m, hm⟩
    · rw [if_neg hc]
      exact ⟨m, hm⟩

/-! ## Generic reduction helper -/

theorem except_match_eq_map (E : Except PyErr (List (List CalEvent))) :
    (match E with
     | .error e => (.error e : Except PyErr (Option (List CalEvent)))
     | .ok evss => .ok (some evss.flatten))
    = Except.map (fun evss => some evss.flatten) E := by
  cases E <;> rfl

/-! ## The claims -/

/-- C1 counterexample: `_extract_table_data` does not drop rows without a
title anchor, so on a one-row table whose row has no anchor the
detail-fetch coordinator returns 0 records for 1 input row — not the
same length as its input row sequence. -/
theorem c1_counterexample :
    (fetchMovieDetails fetchAllA [rowNoAnchor]).length
      ≠ ([rowNoAnchor] : List MovieRowHtml).length := by
  decide

/-- C1 (amended): the coordinator creates one task per row that has a
title anchor, in row order, each carrying that row's own detail-page
reference; the result sequence has one record per task, in task order,
the i-th record fetched (invocation i) from the i-th task's reference.
Rows without a title anchor are excluded by the coordinator itself, not
by the parser, so the output is shorter than the input whenever such a
row exists. -/
theorem c1_order_and_sources (fetch : Nat → String → Option DetailDoc)
    (movies : List MovieRowHtml) :
    fetchMovieTasks movies = movies.filterMap
        (fun r => r.firstAnchor.map
          (fun a => ({ url := a.href, title := mkTitle a } : FetchTask)))
    ∧ (fetchMovieDetails fetch movies).length = (fetchMovieTasks movies).length
    ∧ ∀ i, (fetchMovieDetails fetch movies)[i]?
        = ((fetchMovieTasks movies)[i]?).map
            (fun t => getMovieDetailsPure (fetch i t.url)) := by
  refine ⟨fetchMovieTasks_eq_filterMap movies, ?_, ?_⟩
  · unfold fetchMovieDetails
    exact fetchDetailsFrom_length fetch _ 0
  · intro i
    unfold fetchMovieDetails
    rw [fetchDetailsFrom_getElem?]
    simp

/-- C2 counterexample: a detail page whose duration text is `0 Min.`
yields duration 0 — the matched integer is used verbatim, and it is not
a positive integer. -/
theorem c2_counterexample :
    (extractDetails docZero).duration = 0
      ∧ ¬ 0 < (extractDetails docZero).duration := by
  decide

/-- C2 (amended): the extracted duration is a nonnegative integer and
the matched integer is used — whenever the stripped duration text
matches the `<integer> Min.` pattern at all, the extracted duration is
itself the integer of such a match (which may be 0), and it is 120
exactly when no match exists and when the duration node is absent.  On
fetch or extraction failure the row's result is the empty dict, whose
reads under the defaulting access yield duration 120 and empty
strings. -/
theorem c2_duration_and_failure (doc : DetailDoc) :
    ((doc.durationNode = none → (extractDetails doc).duration = 120)
      ∧ ∀ t, doc.durationNode = some t →
          ((∃ n, MinPatternMatch (stripChars t.toList) n) →
              MinPatternMatch (stripChars t.toList) ((extractDetails doc).duration))
          ∧ ((∀ n, ¬ MinPatternMatch (stripChars t.toList) n) →
              (extractDetails doc).duration = 120))
    ∧ getMovieDetailsPure none = none
    ∧ Details.getDuration none = 120
    ∧ Details.getDescription none = ""
    ∧ Details.getFsk none = ""
    ∧ Details.getRoom none = ""
    ∧ Details.getTrailer none = "" := by
  refine ⟨⟨?_, ?_⟩, rfl, rfl, rfl, rfl, rfl, rfl⟩
  · intro h
    simp [extractDetails, h]
  · intro t ht
    have hdur : (extractDetails doc).duration
        = match searchDurationMin (stripChars t.toList) with
          | some n => n
          | none => 120 := by
      simp [extractDetails, ht]
    constructor
    · rintro ⟨n, pre, ds, ws, suf, heq, hne, hdig, hws, hval⟩
      obtain ⟨m, hm⟩ := searchDurationMin_complete pre ds ws suf hne hdig hws
      rw [← heq] at hm
      rw [hdur, hm]
      exact searchDurationMin_sound (stripChars t.toList) m hm
    · intro hnone
      cases hs : searchDurationMin (stripChars t.toList) with
      | none => rw [hdur, hs]
      | some n =>
        exact absurd (searchDurationMin_sound (stripChars t.toList) n hs) (hnone n)

/-- C2 witness: on `docA`, whose duration text is `100 Min. FSK: 12`,
the extracted duration is exactly 100, and by the theorem it is a value
matched by the `<integer> Min.` pattern. -/
theorem c2_witness :
    (extractDetails docA).duration = 100
    ∧ MinPatternMatch (stripChars ("100 Min. FSK: 12").toList)
        ((extractDetails docA).duration) :=
  ⟨rfl,
    ((c2_duration_and_failure docA).1.2 "100 Min. FSK: 12" rfl).1
      ⟨100, [], ['1', '0', '0'], [' '], (" FSK: 12".toList),
        by decide, by decide, by decide, by decide, by decide⟩⟩

/-- C3 counterexample: with one parsed date and a row of two cells of one
screening each (details non-empty), `process_movie` emits 1 event while
the row's cells hold 2 screenings in total; the cell beyond the date
list is silently dropped by `zip`, so the count is not independent of
the relative lengths. -/
theorem c3_counterexample :
    (processMovie theLocation dates1 rowA (some detA)).map (Option.map List.length)
        = .ok (some 1)
    ∧ (rowA.cells.map (fun c => c.anchors.length)).sum = 2 := by
  exact ⟨rfl, rfl⟩

/-- C3 (amended): whenever `process_movie` returns events for a row, the
number of emitted events equals the total number of screenings (time
anchors) across the cells paired with a date — the first
min(dates-length, cells-length) cells; surplus cells contribute
nothing. -/
theorem c3_event_count (loc : String) (dates : List (Option Date))
    (row : MovieRowHtml) (det : Details) (evs : List CalEvent)
    (h : processMovie loc dates row det = .ok (some evs)) :
    evs.length = ((row.cells.take dates.length).map (fun c => c.anchors.length)).sum := by
  cases hfa : row.firstAnchor with
  | none => rw [processMovie_no_anchor loc dates row det hfa] at h; cases h
  | some a =>
    cases hdet : det with
    | none => rw [hdet, processMovie_det_none] at h; cases h
    | some d =>
      rw [hdet, processMovie_reduce loc dates row a d hfa] at h
      cases hm : exMapM (fun dc => cellEvents loc (mkTitle a) d dc.1 dc.2)
          (dates.zip row.cells) with
      | error e => rw [hm] at h; cases h
      | ok evss =>
        rw [hm] at h
        cases h
        exact zip_cellEvents_count loc (mkTitle a) d dates row.cells evss hm

/-- C3 witness: on the cell-less row `rowS` with the two dates of
`dates2`, the amended count equation holds (0 events, 0 screenings in
the paired prefix). -/
theorem c3_witness :
    ([] : List CalEvent).length
      = ((rowS.cells.take dates2.length).map (fun c => c.anchors.length)).sum :=
  c3_event_count theLocation dates2 rowS (some detA) [] rfl

/-- C4: for a row with a title anchor and non-empty details,
`process_movie` pairs `dates[i]` with the row's cell `i` strictly by
index, for `i` over the shorter of the two lengths — its output equals
the per-index computation over `range (min |dates| |cells|)`, so
surplus elements of the longer sequence produce no events and no
key-based matching or validation occurs. -/
theorem c4_positional_pairing (loc : String) (dates : List (Option Date))
    (row : MovieRowHtml) (d : MovieDetails) (a : Anchor)
    (ha : row.firstAnchor = some a) :
    processMovie loc dates row (some d)
      = Except.map (fun evss => some evss.flatten)
          (exMapM (fun i => cellEvents loc (mkTitle a) d (dates.getD i none)
              (row.cells.getD i emptyCell))
            (List.range (min dates.length row.cells.length))) := by
  rw [processMovie_reduce loc dates row a d ha, except_match_eq_map,
    zip_eq_range_map none emptyCell dates row.cells, exMapM_map]

/-- C4 witness: the pairing equation at `rowA` and the single date of
`dates1`. -/
theorem c4_witness :
    processMovie theLocation dates1 rowA (some detA)
      = Except.map (fun evss => some evss.flatten)
          (exMapM (fun i => cellEvents theLocation (mkTitle anchA) detA
              (dates1.getD i none) (rowA.cells.getD i emptyCell))
            (List.range (min dates1.length rowA.cells.length))) :=
  c4_positional_pairing theLocation dates1 rowA detA anchA rfl

/-- C5 counterexample: with rows [anchor-less, A, B] and exactly A's own
fetch (invocation 0) failing while B's succeeds, the details list is
`[empty, B's details]` and `zip(movies, movie_details)` pairs the
anchor-less row with the empty dict and pairs A — the failing row — with
B's non-empty details: A still emits its screening's event (its group
maps to `some 1`, not zero events), so the failure is not isolated to
the failing row as the claim states. -/
theorem c5_counterexample :
    (generateMovieEvents theLocation [rowNoAnchor, rowA, rowT] dates1
        (fetchMovieDetails fetchFail0 [rowNoAnchor, rowA, rowT])).map
        (fun gs => gs.map (Option.map List.length))
      = .ok [none, some 1] := by
  rfl

/-- C5 (amended): when every row has a title anchor, making the fetch
oracle fail for exactly invocation `j` and leaving every other
invocation unchanged keeps event generation succeeding, turns the
failing row's group into `none` (zero events), and leaves every other
row's group exactly as in the all-success run; the failure reaches
neither siblings nor the caller.  (Without the all-anchored condition,
the `zip(movies, movie_details)` misalignment can pair the failing row
with a sibling's details, as the counterexample shows.) -/
theorem c5_failure_isolation (loc : String) (dates : List (Option Date))
    (fetch fetch' : Nat → String → Option DetailDoc)
    (movies : List MovieRowHtml) (j : Nat) (groups : List (Option (List CalEvent)))
    (hAnchors : ∀ r ∈ movies, r.firstAnchor.isSome = true)
    (hAgree : ∀ i, i ≠ j → fetch' i = fetch i)
    (hFail : ∀ u, fetch' j u = none)
    (hBase : generateMovieEvents loc movies dates (fetchMovieDetails fetch movies)
      = .ok groups) :
    generateMovieEvents loc movies dates (fetchMovieDetails fetch' movies)
        = .ok (groups.set j none)
    ∧ groups.length = movies.length := by
  constructor
  · rw [fetchMovieDetails_fail_at fetch fetch' j movies hAgree hFail]
    unfold generateMovieEvents at hBase ⊢
    exact exMapM_zip_set_none loc dates movies (fetchMovieDetails fetch movies) j
      groups hBase
  · unfold generateMovieEvents at hBase
    have h1 := exMapM_ok_length _ _ hBase
    rw [List.length_zip] at h1
    have h2 : (fetchMovieDetails fetch movies).length = movies.length := by
      unfold fetchMovieDetails
      rw [fetchDetailsFrom_length, fetchMovieTasks_length_of_anchors movies hAnchors]
    rw [h2] at h1
    omega

/-- C5 witness: two anchored rows, the fetch for row 0 made to fail:
row 0's group becomes `none`, row 1's group is unchanged. -/
theorem c5_witness :
    generateMovieEvents theLocation [rowS, rowT] []
        (fetchMovieDetails fetchFail0 [rowS, rowT])
      = .ok (([some [], some []] : List (Option (List CalEvent))).set 0 none)
    ∧ ([some [], some []] : List (Option (List CalEvent))).length
        = ([rowS, rowT] : List MovieRowHtml).length :=
  c5_failure_isolation theLocation [] fetchAllA fetchFail0 [rowS, rowT] 0
    [some [], some []]
    (by decide)
    (fun i hi => funext fun u => by simp [fetchFail0, fetchAllA, hi])
    (fun u => rfl)
    rfl

/-- C6: if a header date fails to parse (its slot is `None`) and the
column at that index holds at least one screening anchor of a row whose
details were fetched successfully, event construction raises, the
top-level handler catches the exception, and the entire run produces no
calendar at all — the damage is not confined to that column or row. -/
theorem c6_unparsed_date_kills_run (year : Nat) (loc : String)
    (fetch : Nat → String → Option DetailDoc) (pg : SchedulePage)
    (table : SchedTable) (dates : List (Option Date)) (j k : Nat)
    (row : MovieRowHtml) (a : Anchor) (d : MovieDetails) (cell : Cell)
    (htable : pg.scheduleTable = some table)
    (hdates : headerDates year table = .ok dates)
    (hj : (table.bodyRows.zip (fetchMovieDetails fetch table.bodyRows))[j]?
      = some (row, some d))
    (ha : row.firstAnchor = some a)
    (hdk : dates[k]? = some none)
    (hck : row.cells[k]? = some cell)
    (hanch : cell.anchors ≠ []) :
    scrapeMovies year loc fetch (some pg) = none := by
  have hbad := processMovie_not_ok_of_bad_date loc dates row a d k cell ha hdk hck hanch
  have hgen := generate_not_ok_of_member loc dates table.bodyRows
    (fetchMovieDetails fetch table.bodyRows) j row (some d) hj hbad
  simp only [scrapeMovies, htable, hdates]
  cases hg : generateMovieEvents loc table.bodyRows dates
      (fetchMovieDetails fetch table.bodyRows) with
  | error e => rfl
  | ok gs => exact absurd hg (hgen gs)

/-- C6 witness: a schedule page whose second header cell is not a date
and whose single (anchored, successfully fetched) row has a screening in
that column: the whole run yields no calendar. -/
theorem c6_witness :
    scrapeMovies 2026 theLocation fetchAllA (some pageBadDate) = none :=
  c6_unparsed_date_kills_run 2026 theLocation fetchAllA pageBadDate
    { headerCells := ["Film", "Demnächst"], bodyRows := [rowA] }
    [none] 0 0 rowA anchA detA ⟨[tlA]⟩
    rfl rfl rfl rfl rfl rfl (List.cons_ne_nil tlA [])

/-- C7: every event `process_movie` emits has its end timestamp equal to
its start timestamp plus exactly the paired details' duration in
minutes (measured on the absolute-minute timeline), the duration coming
from the movie's `MovieDetails`, not from the screening. -/
theorem c7_end_eq_start_plus_duration (loc : String) (dates : List (Option Date))
    (row : MovieRowHtml) (det : Details) (evs : List CalEvent) (e : CalEvent)
    (d : MovieDetails)
    (h : processMovie loc dates row det = .ok (some evs)) (he : e ∈ evs)
    (hd : det = some d)
    (hval : ∀ od ∈ dates, ∀ dd, od = some dd → ValidDate dd) :
    toAbsMinutes e.dtend = toAbsMinutes e.dtstart + d.duration := by
  subst hd
  cases hfa : row.firstAnchor with
  | none => rw [processMovie_no_anchor loc dates row _ hfa] at h; cases h
  | some a =>
    rw [processMovie_reduce loc dates row a d hfa] at h
    cases hm : exMapM (fun dc => cellEvents loc (mkTitle a) d dc.1 dc.2)
        (dates.zip row.cells) with
    | error e2 => rw [hm] at h; cases h
    | ok evss =>
      rw [hm] at h
      cases h
      obtain ⟨l, hl, hel⟩ := List.mem_flatten.mp he
      obtain ⟨dc, hdc, hok⟩ := exMapM_mem_ok _ _ hm l hl
      unfold cellEvents at hok
      obtain ⟨tl, htl, hce⟩ := exMapM_mem_ok _ _ hok e hel
      obtain ⟨start, hps, hds, hde⟩ := createMovieEvent_ok_inv hce
      obtain ⟨dd, hh2, mm2, hdate, hrep⟩ := parseStartTime_ok_inv hps
      have hvd : ValidDate dd := hval dc.1 (List.of_mem_zip hdc).1 dd hdate
      have hvt : ValidDT start := dtReplaceHM_valid dd hh2 mm2 start hvd hrep
      rw [hds, hde]
      exact (addMinutes_valid_toAbs d.duration start hvt).2

set_option maxRecDepth 8000 in
/-- C7 witness: the 18:00 event of `rowA` on 15.03.2026 ends exactly
`detA.duration = 100` minutes after it starts. -/
theorem c7_witness :
    toAbsMinutes evA.dtend = toAbsMinutes evA.dtstart + detA.duration :=
  c7_end_eq_start_plus_duration theLocation dates1 rowA (some detA) [evA] evA detA
    rfl
    (by simp)
    rfl
    (by
      intro od hod dd hdd
      simp only [dates1, List.mem_singleton] at hod
      subst hod
      cases hdd
      decide)

/-- C8: on details with description `D`, duration 90, fsk `12` and empty
room and trailer, with booking reference `/book/1`,
`_create_event_description` returns exactly the expected string:
non-empty segments joined by one blank-line separator, empty optional
segments dropped with no stray separators. -/
theorem c8_description_composition :
    createEventDescription
        { description := "D", duration := 90, fsk := "12", room := "", trailer := "" }
        "/book/1"
      = "D\n\n🕐 Dauer: 90 Minuten\n\n🔞 FSK: 12\n\n🎟️ Tickets: /book/1" := by
  rfl

/-- C9: a schedule document in which the schedule table cannot be
located produces no calendar artifact: `scrape_movies` returns the
designated failure value `None`, never a partially-built calendar. -/
theorem c9_missing_table (year : Nat) (loc : String)
    (fetch : Nat → String → Option DetailDoc) (pg : SchedulePage)
    (h : pg.scheduleTable = none) :
    scrapeMovies year loc fetch (some pg) = none := by
  simp only [scrapeMovies, h]

/-- C9 witness: the concrete table-less page. -/
theorem c9_witness :
    scrapeMovies 2026 theLocation fetchAllA
      (some { scheduleTable := none }) = none :=
  c9_missing_table 2026 theLocation fetchAllA { scheduleTable := none } rfl

/-- C10: in the semaphore model of the bounded fetch fan-out, every
scheduler state reachable from `n` queued tasks under `limit` permits
has at most `limit` fetches in flight, for every interleaving; a fetch
beyond the limit waits until a permit frees. -/
theorem c10_concurrency_bound (limit n : Nat) (s : SemState)
    (h : SemReach limit n s) : s.inFlight ≤ limit := by
  have := semInFlight_avail limit n s h
  omega

/-- C10 witness: the initial state of 60 tasks under the default limit
50 is reachable and within the bound. -/
theorem c10_witness :
    (initSem defaultMaxConcurrent 60).inFlight ≤ defaultMaxConcurrent :=
  c10_concurrency_bound defaultMaxConcurrent 60 (initSem defaultMaxConcurrent 60)
    Relation.ReflTransGen.refl

end Kino
